import Mathlib

/-!
Verification of the deno-redis core against its specification.

The TypeScript sources are shallowly embedded:
* JS strings and `Uint8Array`s on the wire are modelled as `List Nat` of byte values;
* the buffered reader is modelled as the remaining byte list, each reader returning
  the parsed value together with the unconsumed rest;
* thrown exceptions are modelled with `Except`;
* JS `number` results of `parseInt` are modelled as `Option Int`, `none` standing
  for `NaN`.
-/

namespace DenoRedis

/-- Bytes of the wire protocol; JS strings and `Uint8Array`s are modelled as lists
of byte values. -/
abbrev Bytes := List Nat

/-- ASCII string to bytes (every wire literal in this development is ASCII). -/
def str (s : String) : Bytes := s.data.map Char.toNat

/-- src/protocol/reply.ts: `":".charCodeAt(0)`. -/
def IntegerReplyCode : Nat := 58

/-- src/protocol/reply.ts: `"$".charCodeAt(0)`. -/
def BulkReplyCode : Nat := 36

/-- src/protocol/reply.ts: `"+".charCodeAt(0)`. -/
def SimpleStringCode : Nat := 43

/-- src/protocol/reply.ts: `"*".charCodeAt(0)`. -/
def ArrayReplyCode : Nat := 42

/-- src/protocol/reply.ts: `"-".charCodeAt(0)`. -/
def ErrorReplyCode : Nat := 45

/-- The exceptions raised by the reply parser (src/errors.ts). `errorReply` carries
the full error line, `otherError` models the generic `Error` thrown by
`tryParseErrorReply` on a non-error line. -/
inductive RedisError
  | eof
  | invalidState
  | errorReply (line : Bytes)
  | otherError (line : Bytes)
deriving DecidableEq, Repr

/-- A parsed RESP reply (src/protocol/types.ts RedisReply). The integer carries
`none` when `Number.parseInt` yields `NaN`; a `bulk none` / `array none` is a nil
bulk / null array. -/
inductive RedisReply
  | integer (n : Option Int)
  | simple (s : Bytes)
  | bulk (s : Option Bytes)
  | array (xs : Option (List RedisReply))

/-- The bytes before the first LF together with the input after the LF; `none` when
the input holds no LF (modelling a `null` result of `BufReader.readLine` at end of
input). -/
def splitLine : Bytes → Option (Bytes × Bytes)
  | [] => none
  | b :: rest =>
    if b = 10 then some ([], rest)
    else
      match splitLine rest with
      | none => none
      | some (line, rem) => some (b :: line, rem)

/-- `BufReader.readLine` strips the trailing CR of the raw line when present. -/
def stripCR (l : Bytes) : Bytes := if l.getLast? = some 13 then l.dropLast else l

/-- src/protocol/reply.ts readLine: a `null` result of the underlying
`BufReader.readLine` becomes an InvalidStateError. -/
def readLine (input : Bytes) : Except RedisError (Bytes × Bytes) :=
  match splitLine input with
  | none => .error .invalidState
  | some (raw, rest) => .ok (stripCR raw, rest)

/-- ASCII decimal digit test. -/
def isDigit (b : Nat) : Bool := 48 ≤ b && b ≤ 57

/-- Value of a list of ASCII digits. -/
def digitsToNat (ds : Bytes) : Nat := ds.foldl (fun acc d => acc * 10 + (d - 48)) 0

/-- Model of JavaScript `parseInt` on a byte string: an optional sign followed by
the leading run of decimal digits; trailing garbage is ignored and `none` models
`NaN` (no digits at all). Leading whitespace, which never occurs on RESP size
lines, is not modelled. -/
def jsParseInt (s : Bytes) : Option Int :=
  match s with
  | [] => none
  | b :: rest =>
    if b = 45 then
      let ds := rest.takeWhile isDigit
      if ds.isEmpty then none else some (-(digitsToNat ds : Int))
    else if b = 43 then
      let ds := rest.takeWhile isDigit
      if ds.isEmpty then none else some ((digitsToNat ds : Int))
    else
      let ds := (b :: rest).takeWhile isDigit
      if ds.isEmpty then none else some ((digitsToNat ds : Int))

/-- src/protocol/reply.ts parseSize: `parseInt` of the line after the leading type
byte. -/
def parseSize (line : Bytes) : Option Int := jsParseInt (line.drop 1)

/-- `reader.peek(1)`: the head byte, if any. -/
def peek1 (input : Bytes) : Option Nat := input.head?

/-- src/protocol/reply.ts tryParseErrorReply: an ErrorReplyError with the full line
when the line is an error frame, a plain `Error` otherwise. It always throws; the
model returns the error to raise. -/
def tryParseErrorReply (line : Bytes) : RedisError :=
  if line.head? = some ErrorReplyCode then .errorReply line else .otherError line

/-- src/protocol/reply.ts tryReadErrorReply: read a line and raise via
tryParseErrorReply. -/
def tryReadErrorReply (input : Bytes) : Except RedisError (RedisReply × Bytes) :=
  match readLine input with
  | .error e => .error e
  | .ok (line, _) => .error (tryParseErrorReply line)

/-- src/protocol/reply.ts readIntegerReply with the default parser
(`Number.parseInt` of the bytes after the type byte). -/
def readIntegerReply (input : Bytes) : Except RedisError (RedisReply × Bytes) :=
  match readLine input with
  | .error e => .error e
  | .ok (line, rest) => .ok (.integer (jsParseInt (line.drop 1)), rest)

/-- src/protocol/reply.ts readSimpleStringReply with the default parser. -/
def readSimpleStringReply (input : Bytes) : Except RedisError (RedisReply × Bytes) :=
  match readLine input with
  | .error e => .error e
  | .ok (line, rest) =>
    if line.head? ≠ some SimpleStringCode then .error (tryParseErrorReply line)
    else .ok (.simple (line.drop 1), rest)

/-- src/protocol/reply.ts readBulkReply with the default parser. When `parseInt`
yields `NaN` the source computes `NaN < 0` (false) and allocates
`new Uint8Array(NaN + 2)` of length 0, so nothing is read and the body is empty.
`readFull` on a stream shorter than the destination is modelled as an error. -/
def readBulkReply (input : Bytes) : Except RedisError (RedisReply × Bytes) :=
  match readLine input with
  | .error e => .error e
  | .ok (line, rest) =>
    if line.head? ≠ some BulkReplyCode then .error (tryParseErrorReply line)
    else
      match parseSize line with
      | none => .ok (.bulk (some []), rest)
      | some size =>
        if size < 0 then .ok (.bulk none, rest)
        else
          let n := size.toNat + 2
          if rest.length < n then .error .invalidState
          else
            let dest := rest.take n
            .ok (.bulk (some (dest.take (dest.length - 2))), rest.drop n)

/-- The element loop of src/protocol/reply.ts readArrayReply: read `n` replies in
sequence with `read1`. -/
def readMany (read1 : Bytes → Except RedisError (RedisReply × Bytes)) :
    Nat → Bytes → Except RedisError (List RedisReply × Bytes)
  | 0, input => .ok ([], input)
  | n + 1, input =>
    match read1 input with
    | .error e => .error e
    | .ok (r, rest) =>
      match readMany read1 n rest with
      | .error e => .error e
      | .ok (rs, rest2) => .ok (r :: rs, rest2)

/-- src/protocol/reply.ts readArrayReply, with the recursive element reader passed
explicitly. A `NaN` count is not `-1` and the element loop does not run; a
negative count other than `-1` also runs the loop zero times (`Int.toNat` is 0). -/
def readArrayReplyWith (read1 : Bytes → Except RedisError (RedisReply × Bytes))
    (input : Bytes) : Except RedisError (RedisReply × Bytes) :=
  match readLine input with
  | .error e => .error e
  | .ok (line, rest) =>
    match parseSize line with
    | none => .ok (.array (some []), rest)
    | some c =>
      if c = -1 then .ok (.array none, rest)
      else
        match readMany read1 c.toNat rest with
        | .error e => .error e
        | .ok (rs, rest2) => .ok (.array (some rs), rest2)

/-- src/protocol/reply.ts readReply: peek one byte and dispatch; an error frame is
raised via tryReadErrorReply before the dispatch switch. The fuel only decreases
when entering an array's element reader and bounds the array nesting depth; fuel 0
is modelled as an InvalidStateError and is never reached on inputs of bounded
depth. -/
def readReply : Nat → Bytes → Except RedisError (RedisReply × Bytes)
  | 0, _ => .error .invalidState
  | fuel + 1, input =>
    match peek1 input with
    | none => .error .eof
    | some code =>
      if code = ErrorReplyCode then tryReadErrorReply input
      else if code = IntegerReplyCode then readIntegerReply input
      else if code = SimpleStringCode then readSimpleStringReply input
      else if code = BulkReplyCode then readBulkReply input
      else if code = ArrayReplyCode then readArrayReplyWith (readReply fuel) input
      else .error .invalidState

/-- src/protocol/reply.ts readArrayReply as exported. -/
def readArrayReply (fuel : Nat) (input : Bytes) : Except RedisError (RedisReply × Bytes) :=
  readArrayReplyWith (readReply fuel) input

/-- Decimal ASCII rendering of a natural number (the `${len}` string interpolation
of the encoder), with structural fuel so that it reduces in the kernel; `n + 1`
units always suffice. -/
def natToDecAux : Nat → Nat → Bytes
  | 0, _ => []
  | fuel + 1, n =>
    if n < 10 then [48 + n] else natToDecAux fuel (n / 10) ++ [48 + n % 10]

/-- Decimal ASCII rendering of a natural number. -/
def natToDec (n : Nat) : Bytes := natToDecAux (n + 1) n

/-- Modelled from the spec: the bulk encoding of one argument. `encodeCommand`
lives in src/protocol/command.ts, which is not part of the corpus (only its test
is); spec §4.1: a request is `*N\r\n` followed by N bulk strings, each
`$len\r\n<bytes>\r\n`. -/
def encodeBulk (a : Bytes) : Bytes :=
  BulkReplyCode :: natToDec a.length ++ [13, 10] ++ a ++ [13, 10]

/-- Modelled from the spec: the array framing shared by requests. -/
def encodeArray (items : List Bytes) : Bytes :=
  ArrayReplyCode :: natToDec items.length ++ [13, 10] ++ (items.map encodeBulk).flatten

/-- Modelled from the spec: `encodeCommand` of src/protocol/command.ts (not in the
corpus; only its test is). Spec §4.1: the command name is the first argument and
every argument is encoded as a length-prefixed binary bulk, with no escaping. -/
def encodeCommand (command : Bytes) (args : List Bytes) : Bytes :=
  encodeArray (command :: args)

/-! ### Lemmas about decimal rendering and line splitting -/

theorem natToDecAux_digits (fuel : Nat) : ∀ n, n < fuel → ∀ b ∈ natToDecAux fuel n, isDigit b = true := by
  induction fuel with
  | zero => intro n hn; omega
  | succ fuel ih =>
    intro n hn b hb
    rw [natToDecAux] at hb
    by_cases h10 : n < 10
    · rw [if_pos h10] at hb
      simp only [List.mem_singleton] at hb
      subst hb
      simp only [isDigit, Bool.and_eq_true, decide_eq_true_eq]
      omega
    · rw [if_neg h10] at hb
      rcases List.mem_append.mp hb with h | h
      · exact ih (n / 10) (by omega) b h
      · simp only [List.mem_singleton] at h
        subst h
        simp only [isDigit, Bool.and_eq_true, decide_eq_true_eq]
        omega

theorem natToDec_digits (n : Nat) : ∀ b ∈ natToDec n, isDigit b = true :=
  natToDecAux_digits (n + 1) n (Nat.lt_succ_self n)

theorem natToDecAux_ne_nil (fuel n : Nat) (h : n < fuel) : natToDecAux fuel n ≠ [] := by
  cases fuel with
  | zero => omega
  | succ fuel =>
    rw [natToDecAux]
    by_cases h10 : n < 10
    · rw [if_pos h10]; simp
    · rw [if_neg h10]; simp

theorem natToDec_ne_nil (n : Nat) : natToDec n ≠ [] :=
  natToDecAux_ne_nil (n + 1) n (Nat.lt_succ_self n)

theorem digitsToNat_append_singleton (xs : Bytes) (d : Nat) :
    digitsToNat (xs ++ [d]) = digitsToNat xs * 10 + (d - 48) := by
  simp [digitsToNat, List.foldl_append]

theorem digitsToNat_natToDecAux (fuel : Nat) : ∀ n, n < fuel → digitsToNat (natToDecAux fuel n) = n := by
  induction fuel with
  | zero => intro n hn; omega
  | succ fuel ih =>
    intro n hn
    rw [natToDecAux]
    by_cases h10 : n < 10
    · rw [if_pos h10]
      simp only [digitsToNat, List.foldl_cons, List.foldl_nil]
      omega
    · rw [if_neg h10, digitsToNat_append_singleton, ih (n / 10) (by omega)]
      omega

theorem digitsToNat_natToDec (n : Nat) : digitsToNat (natToDec n) = n :=
  digitsToNat_natToDecAux (n + 1) n (Nat.lt_succ_self n)

theorem natToDec_no_lf (n : Nat) : 10 ∉ natToDec n := by
  intro h
  have := natToDec_digits n 10 h
  simp [isDigit] at this

theorem natToDec_no_cr (n : Nat) : 13 ∉ natToDec n := by
  intro h
  have := natToDec_digits n 13 h
  simp [isDigit] at this

theorem jsParseInt_natToDec (n : Nat) : jsParseInt (natToDec n) = some (n : Int) := by
  obtain ⟨b, t, hbt⟩ : ∃ b t, natToDec n = b :: t := by
    cases h : natToDec n with
    | nil => exact absurd h (natToDec_ne_nil n)
    | cons b t => exact ⟨b, t, rfl⟩
  have hdig : ∀ x ∈ natToDec n, isDigit x = true := natToDec_digits n
  have hb : isDigit b = true := hdig b (by rw [hbt]; simp)
  have hb48 : 48 ≤ b := by
    simp only [isDigit, Bool.and_eq_true, decide_eq_true_eq] at hb; omega
  have htake : (b :: t).takeWhile isDigit = b :: t := by
    rw [List.takeWhile_eq_self_iff]
    intro x hx
    exact hdig x (by rw [hbt]; exact hx)
  rw [hbt, jsParseInt]
  rw [if_neg (by omega), if_neg (by omega)]
  simp only [htake, List.isEmpty_cons, ite_false, Bool.false_eq_true, if_false]
  have : digitsToNat (b :: t) = n := by rw [← hbt, digitsToNat_natToDec]
  rw [this]

theorem splitLine_append (l rest : Bytes) (h : 10 ∉ l) :
    splitLine (l ++ 13 :: 10 :: rest) = some (l ++ [13], rest) := by
  induction l with
  | nil => simp [splitLine]
  | cons b t ih =>
    have hb : b ≠ 10 := fun hb => h (by rw [hb]; simp)
    have ht : 10 ∉ t := fun ht => h (List.mem_cons_of_mem b ht)
    simp only [List.cons_append, splitLine, if_neg hb, List.append_eq, ih ht]

theorem stripCR_append_cr (l : Bytes) : stripCR (l ++ [13]) = l := by
  simp [stripCR]

theorem readLine_crlf (l rest : Bytes) (h : 10 ∉ l) :
    readLine (l ++ 13 :: 10 :: rest) = .ok (l, rest) := by
  simp only [readLine, splitLine_append l rest h, stripCR_append_cr]

/-! ### Parsing lemmas for encoded frames -/

theorem readBulkReply_encodeBulk (a rest : Bytes) :
    readBulkReply (encodeBulk a ++ rest) = .ok (.bulk (some a), rest) := by
  have hline : 10 ∉ (BulkReplyCode :: natToDec a.length) := by
    intro h
    rcases List.mem_cons.mp h with h | h
    · simp [BulkReplyCode] at h
    · exact natToDec_no_lf _ h
  have hshape : encodeBulk a ++ rest =
      (BulkReplyCode :: natToDec a.length) ++ 13 :: 10 :: (a ++ 13 :: 10 :: rest) := by
    simp [encodeBulk]
  rw [hshape, readBulkReply, readLine_crlf _ _ hline]
  simp only [List.head?_cons, ne_eq, not_true_eq_false, if_false, ite_false]
  rw [parseSize]
  simp only [List.drop_succ_cons, List.drop_zero, jsParseInt_natToDec]
  rw [if_neg (by omega)]
  have htoNat : ((a.length : Int)).toNat = a.length := Int.toNat_natCast a.length
  rw [htoNat]
  rw [if_neg (by simp only [List.length_append, List.length_cons]; omega)]
  have htake : (a ++ 13 :: 10 :: rest).take (a.length + 2) = a ++ [13, 10] := by
    rw [List.take_append_eq_append_take, List.take_of_length_le (le_of_lt (by omega))]
    congr 1
    have h2 : a.length + 2 - a.length = 2 := by omega
    rw [h2]
    rfl
  have hdrop : (a ++ 13 :: 10 :: rest).drop (a.length + 2) = rest := by
    rw [List.drop_append_eq_append_drop, List.drop_of_length_le (le_of_lt (by omega))]
    have : a.length + 2 - a.length = 2 := by omega
    rw [this]
    rfl
  rw [htake, hdrop]
  have hlen : (a ++ [13, 10]).length - 2 = a.length := by simp
  rw [hlen]
  rw [List.take_left]

theorem readReply_encodeBulk (fuel : Nat) (a rest : Bytes) :
    readReply (fuel + 1) (encodeBulk a ++ rest) = .ok (.bulk (some a), rest) := by
  have hpeek : peek1 (encodeBulk a ++ rest) = some BulkReplyCode := by
    simp [peek1, encodeBulk]
  rw [readReply, hpeek]
  dsimp only
  rw [if_neg (by simp [BulkReplyCode, ErrorReplyCode]),
    if_neg (by simp [BulkReplyCode, IntegerReplyCode]),
    if_neg (by simp [BulkReplyCode, SimpleStringCode]),
    if_pos rfl]
  exact readBulkReply_encodeBulk a rest

theorem readMany_encodeBulks (fuel : Nat) (items : List Bytes) (rest : Bytes) :
    readMany (readReply (fuel + 1)) items.length ((items.map encodeBulk).flatten ++ rest) =
      .ok (items.map (fun a => RedisReply.bulk (some a)), rest) := by
  induction items generalizing rest with
  | nil => simp [readMany]
  | cons a items ih =>
    simp only [List.map_cons, List.flatten_cons, List.length_cons, List.append_assoc]
    rw [readMany, readReply_encodeBulk fuel a ((items.map encodeBulk).flatten ++ rest)]
    dsimp only
    rw [ih rest]

theorem readReply_encodeArray (fuel : Nat) (items : List Bytes) (rest : Bytes) :
    readReply (fuel + 2) (encodeArray items ++ rest) =
      .ok (.array (some (items.map (fun a => RedisReply.bulk (some a)))), rest) := by
  have hpeek : peek1 (encodeArray items ++ rest) = some ArrayReplyCode := by
    simp [peek1, encodeArray]
  rw [readReply, hpeek]
  dsimp only
  rw [if_neg (by simp [ArrayReplyCode, ErrorReplyCode]),
    if_neg (by simp [ArrayReplyCode, IntegerReplyCode]),
    if_neg (by simp [ArrayReplyCode, SimpleStringCode]),
    if_neg (by simp [ArrayReplyCode, BulkReplyCode]),
    if_pos rfl]
  have hline : 10 ∉ (ArrayReplyCode :: natToDec items.length) := by
    intro h
    rcases List.mem_cons.mp h with h | h
    · simp [ArrayReplyCode] at h
    · exact natToDec_no_lf _ h
  have hshape : encodeArray items ++ rest =
      (ArrayReplyCode :: natToDec items.length) ++
        13 :: 10 :: ((items.map encodeBulk).flatten ++ rest) := by
    simp [encodeArray]
  rw [hshape, readArrayReplyWith, readLine_crlf _ _ hline]
  dsimp only
  rw [parseSize]
  simp only [List.drop_succ_cons, List.drop_zero, jsParseInt_natToDec]
  rw [if_neg (by omega)]
  have htoNat : ((items.length : Int)).toNat = items.length := Int.toNat_natCast items.length
  rw [htoNat, readMany_encodeBulks fuel items rest]

/-- C1: for every command name and argument vector, the encoding is `*k\r\n`
(`k = 1 + number of arguments`, i.e. the length of the command-name-first item
list) followed by one exact length-prefixed bulk per item, parsing the encoding
back as a RESP array yields the same sequence of byte strings (as bulk values, in
order, consuming the whole encoding), and the `SET name bar` example encodes to
exactly the expected bytes. -/
theorem C1_encode_roundtrip :
    (∀ (command : Bytes) (args : List Bytes),
        encodeCommand command args =
          ArrayReplyCode :: natToDec (args.length + 1) ++ [13, 10] ++
            ((command :: args).map encodeBulk).flatten ∧
        readReply 2 (encodeCommand command args) =
          .ok (.array (some ((command :: args).map fun a => RedisReply.bulk (some a))), [])) ∧
    encodeCommand (str "SET") [str "name", str "bar"] =
      str "*3\r\n$3\r\nSET\r\n$4\r\nname\r\n$3\r\nbar\r\n" := by
  refine ⟨fun command args => ⟨?_, ?_⟩, ?_⟩
  · simp [encodeCommand, encodeArray]
  · have h := readReply_encodeArray 0 (command :: args) []
    simpa [encodeCommand] using h
  · rfl

/-! ### Error frames: ErrorReply is raised exactly at `-` frames -/

theorem stripCR_head (b : Nat) (l : Bytes) (hb : b ≠ 13) :
    (stripCR (b :: l)).head? = some b := by
  cases l with
  | nil =>
    rw [stripCR]
    rw [if_neg (by simp [hb])]
    rfl
  | cons c t =>
    rw [stripCR]
    by_cases h : (b :: c :: t).getLast? = some 13
    · rw [if_pos h]
      rw [List.dropLast_cons_of_ne_nil (by simp)]
      rfl
    · rw [if_neg h]
      rfl

theorem tryParseErrorReply_head (line l : Bytes)
    (h : tryParseErrorReply line = .errorReply l) : l.head? = some ErrorReplyCode := by
  rw [tryParseErrorReply] at h
  by_cases hc : line.head? = some ErrorReplyCode
  · rw [if_pos hc] at h
    injection h with h2
    rw [← h2]
    exact hc
  · rw [if_neg hc] at h
    cases h

theorem readLine_error_shape (input : Bytes) (e : RedisError)
    (h : readLine input = .error e) : e = .invalidState := by
  rw [readLine] at h
  split at h
  · injection h with h2
    exact h2.symm
  · cases h

theorem tryReadErrorReply_errorReply_head (input l : Bytes)
    (h : tryReadErrorReply input = .error (.errorReply l)) : l.head? = some ErrorReplyCode := by
  rw [tryReadErrorReply] at h
  split at h
  · rename_i e heq
    injection h with h2
    have := readLine_error_shape input e heq
    rw [this] at h2
    cases h2
  · rename_i line rest heq
    injection h with h2
    exact tryParseErrorReply_head line l h2

theorem readIntegerReply_errorReply_head (input l : Bytes)
    (h : readIntegerReply input = .error (.errorReply l)) : l.head? = some ErrorReplyCode := by
  rw [readIntegerReply] at h
  split at h
  · rename_i e heq
    injection h with h2
    have := readLine_error_shape input e heq
    rw [this] at h2
    cases h2
  · cases h

theorem readSimpleStringReply_errorReply_head (input l : Bytes)
    (h : readSimpleStringReply input = .error (.errorReply l)) : l.head? = some ErrorReplyCode := by
  rw [readSimpleStringReply] at h
  split at h
  · rename_i e heq
    injection h with h2
    have := readLine_error_shape input e heq
    rw [this] at h2
    cases h2
  · rename_i line rest heq
    split at h
    · injection h with h2
      exact tryParseErrorReply_head line l h2
    · cases h

theorem readBulkReply_errorReply_head (input l : Bytes)
    (h : readBulkReply input = .error (.errorReply l)) : l.head? = some ErrorReplyCode := by
  rw [readBulkReply] at h
  split at h
  · rename_i e heq
    injection h with h2
    have := readLine_error_shape input e heq
    rw [this] at h2
    cases h2
  · rename_i line rest heq
    split at h
    · injection h with h2
      exact tryParseErrorReply_head line l h2
    · split at h
      · cases h
      · split at h
        · cases h
        · dsimp only at h
          split at h
          · injection h with h2
            cases h2
          · cases h

theorem readMany_errorReply_head
    (read1 : Bytes → Except RedisError (RedisReply × Bytes))
    (h1 : ∀ input l, read1 input = .error (.errorReply l) → l.head? = some ErrorReplyCode) :
    ∀ (n : Nat) (input l : Bytes),
      readMany read1 n input = .error (.errorReply l) → l.head? = some ErrorReplyCode := by
  intro n
  induction n with
  | zero => intro input l h; cases h
  | succ n ih =>
    intro input l h
    rw [readMany] at h
    split at h
    · rename_i e heq
      injection h with h2
      rw [h2] at heq
      exact h1 input l heq
    · rename_i r rest heq
      split at h
      · rename_i e heq2
        injection h with h2
        rw [h2] at heq2
        exact ih rest l heq2
      · cases h

theorem readArrayReplyWith_errorReply_head
    (read1 : Bytes → Except RedisError (RedisReply × Bytes))
    (h1 : ∀ input l, read1 input = .error (.errorReply l) → l.head? = some ErrorReplyCode)
    (input l : Bytes)
    (h : readArrayReplyWith read1 input = .error (.errorReply l)) :
    l.head? = some ErrorReplyCode := by
  rw [readArrayReplyWith] at h
  split at h
  · rename_i e heq
    injection h with h2
    have := readLine_error_shape input e heq
    rw [this] at h2
    cases h2
  · rename_i line rest heq
    split at h
    · cases h
    · rename_i c heq2
      split at h
      · cases h
      · split at h
        · rename_i e heq3
          injection h with h2
          rw [h2] at heq3
          exact readMany_errorReply_head read1 h1 c.toNat rest l heq3
        · cases h

theorem readReply_errorReply_head (fuel : Nat) :
    ∀ (input l : Bytes),
      readReply fuel input = .error (.errorReply l) → l.head? = some ErrorReplyCode := by
  induction fuel with
  | zero => intro input l h; cases h
  | succ fuel ih =>
    intro input l h
    rw [readReply] at h
    split at h
    · cases h
    · rename_i code heq
      split at h
      · exact tryReadErrorReply_errorReply_head input l h
      · split at h
        · exact readIntegerReply_errorReply_head input l h
        · split at h
          · exact readSimpleStringReply_errorReply_head input l h
          · split at h
            · exact readBulkReply_errorReply_head input l h
            · split at h
              · exact readArrayReplyWith_errorReply_head (readReply fuel) ih input l h
              · cases h

/-- C6: when readReply peeks a `-` byte it reads the full line and raises an
ErrorReply error carrying the full line text (never returning the frame as a
value), and conversely readReply raises ErrorReply only when an error frame was
observed (the carried line always starts with `-`). -/
theorem C6_error_frame :
    (∀ (fuel : Nat) (input line rest : Bytes),
        peek1 input = some ErrorReplyCode →
        readLine input = .ok (line, rest) →
        readReply (fuel + 1) input = .error (.errorReply line)) ∧
    (∀ (fuel : Nat) (input line : Bytes),
        readReply fuel input = .error (.errorReply line) →
        line.head? = some ErrorReplyCode) := by
  constructor
  · intro fuel input line rest hpeek hline
    obtain ⟨t, ht⟩ : ∃ t, input = ErrorReplyCode :: t := by
      cases input with
      | nil => cases hpeek
      | cons b t =>
        rw [peek1, List.head?_cons] at hpeek
        injection hpeek with hb
        exact ⟨t, by rw [hb]⟩
    have hhead : line.head? = some ErrorReplyCode := by
      rw [readLine] at hline
      cases hsplit : splitLine input with
      | none => rw [hsplit] at hline; cases hline
      | some p =>
        obtain ⟨raw, rem⟩ := p
        rw [hsplit] at hline
        dsimp only at hline
        injection hline with h1
        have hl : line = stripCR raw := (congrArg Prod.fst h1).symm
        rw [ht, splitLine, if_neg (by simp [ErrorReplyCode])] at hsplit
        cases hs2 : splitLine t with
        | none => rw [hs2] at hsplit; cases hsplit
        | some q =>
          obtain ⟨l2, rem2⟩ := q
          rw [hs2] at hsplit
          dsimp only at hsplit
          injection hsplit with h2
          have hraw : raw = ErrorReplyCode :: l2 := (congrArg Prod.fst h2).symm
          rw [hl, hraw]
          exact stripCR_head ErrorReplyCode l2 (by simp [ErrorReplyCode])
    rw [readReply, ht]
    have hpeek2 : peek1 (ErrorReplyCode :: t) = some ErrorReplyCode := rfl
    rw [hpeek2]
    dsimp only
    rw [if_pos rfl, tryReadErrorReply, ← ht, hline]
    dsimp only
    rw [tryParseErrorReply, if_pos hhead]
  · intro fuel input line h
    exact readReply_errorReply_head fuel input line h

/-- Witness for C6 at a concrete error frame. -/
theorem C6_error_frame_witness :
    readReply 1 (str "-ERR unknown command\r\n") =
      .error (.errorReply (str "-ERR unknown command")) ∧
    (str "-ERR unknown command").head? = some ErrorReplyCode :=
  ⟨C6_error_frame.1 0 (str "-ERR unknown command\r\n") (str "-ERR unknown command") [] rfl rfl,
   C6_error_frame.2 1 (str "-ERR unknown command\r\n") (str "-ERR unknown command")
     (C6_error_frame.1 0 (str "-ERR unknown command\r\n") (str "-ERR unknown command") [] rfl
       rfl)⟩

/-- C7: when decoding a bulk reply whose length line parses to `len`: if `len` is
`-1` the value is nil and only the length line is consumed; if `len ≥ 0` (and the
stream holds the announced bytes) exactly `len + 2` further bytes are consumed and
the value is the first `len` bytes unchanged, the trailing CRLF being stripped. -/
theorem C7_bulk_decode (ds tail : Bytes) (len : Int) (h10 : 10 ∉ ds)
    (hparse : jsParseInt ds = some len) :
    (len = -1 →
      readBulkReply ((BulkReplyCode :: ds) ++ 13 :: 10 :: tail) = .ok (.bulk none, tail)) ∧
    (0 ≤ len → len.toNat + 2 ≤ tail.length →
      readBulkReply ((BulkReplyCode :: ds) ++ 13 :: 10 :: tail) =
        .ok (.bulk (some (tail.take len.toNat)), tail.drop (len.toNat + 2))) := by
  have hline : 10 ∉ (BulkReplyCode :: ds) := by
    intro h
    rcases List.mem_cons.mp h with h | h
    · simp [BulkReplyCode] at h
    · exact h10 h
  have hrl : readLine ((BulkReplyCode :: ds) ++ 13 :: 10 :: tail) =
      .ok (BulkReplyCode :: ds, tail) := readLine_crlf _ _ hline
  have hps : parseSize (BulkReplyCode :: ds) = some len := by
    rw [parseSize, List.drop_succ_cons, List.drop_zero, hparse]
  constructor
  · intro hm1
    rw [readBulkReply, hrl]
    dsimp only
    rw [if_neg (by simp), hps]
    dsimp only
    rw [if_pos (by omega)]
  · intro hnn hlen
    rw [readBulkReply, hrl]
    dsimp only
    rw [if_neg (by simp), hps]
    dsimp only
    rw [if_neg (by omega), if_neg (by omega)]
    have hlen2 : (tail.take (len.toNat + 2)).length = len.toNat + 2 := by
      rw [List.length_take]
      omega
    rw [hlen2]
    have htt : (tail.take (len.toNat + 2)).take (len.toNat + 2 - 2) = tail.take len.toNat := by
      rw [List.take_take]
      congr 1
      omega
    rw [htt]

/-- Witness for C7 at a nil bulk and at a 3-byte bulk. -/
theorem C7_bulk_decode_witness :
    readBulkReply ((BulkReplyCode :: str "-1") ++ 13 :: 10 :: str "rest") =
      .ok (.bulk none, str "rest") ∧
    readBulkReply ((BulkReplyCode :: str "3") ++ 13 :: 10 :: str "foo\r\nX") =
      .ok (.bulk (some ((str "foo\r\nX").take (3 : Int).toNat)),
        (str "foo\r\nX").drop ((3 : Int).toNat + 2)) :=
  ⟨(C7_bulk_decode (str "-1") (str "rest") (-1) (by decide) (by decide)).1 rfl,
   (C7_bulk_decode (str "3") (str "foo\r\nX") 3 (by decide) (by decide)).2 (by decide) (by decide)⟩

/-! ### Pipeline executor (src/pipeline.ts) -/

/-- A command record queued by the pipeline executor (src/pipeline.ts `commands`
entries). The optional parseReply transform is not modelled: the model always
uses the default reply parsers. -/
structure PipelineCommand where
  command : Bytes
  args : List Bytes
deriving DecidableEq, Repr

/-- src/connection.ts kEmptyRedisArgs, the shared empty-arguments constant
(connection.ts is not in the corpus; src/pipeline.ts substitutes it for a missing
args array). -/
def kEmptyRedisArgs : List Bytes := []

/-- src/protocol/reply.ts okReply. -/
def okReply : Bytes := str "OK"

/-- The mutable state of a src/pipeline.ts PipelineExecutor: the pending command
buffer and the FIFO of snapshotted batches. Each queue entry's deferred is
modelled by the batch's position in the queue. -/
structure PipelineState where
  commands : List PipelineCommand
  queue : List (List PipelineCommand)
deriving DecidableEq, Repr

/-- The state of a freshly constructed PipelineExecutor. -/
def initialPipelineState : PipelineState := ⟨[], []⟩

/-- src/pipeline.ts PipelineExecutor.sendCommand: push one record onto `commands`
(args defaulting to kEmptyRedisArgs) and return the already-resolved sentinel
okReply. The first component models the value of the returned promise. -/
def PipelineExecutor.sendCommand (st : PipelineState) (command : Bytes)
    (args : Option (List Bytes)) : Bytes × PipelineState :=
  (okReply,
    { commands := st.commands ++ [⟨command, args.getD kEmptyRedisArgs⟩],
      queue := st.queue })

/-- The batch wrapping of src/pipeline.ts flush: in tx mode MULTI is unshifted in
front and EXEC pushed at the end of the snapshot. -/
def wrapTx (tx : Bool) (cmds : List PipelineCommand) : List PipelineCommand :=
  if tx then ⟨str "MULTI", []⟩ :: cmds ++ [⟨str "EXEC", []⟩] else cmds

/-- src/pipeline.ts PipelineExecutor.flush (state part): in tx mode unshift MULTI
and push EXEC, snapshot the commands as a new queue entry and clear them.
Dispatch of the queue is modelled separately. -/
def PipelineExecutor.flush (tx : Bool) (st : PipelineState) : PipelineState :=
  { commands := [], queue := st.queue ++ [wrapTx tx st.commands] }

/-- A slot of a flush result: a reply, or a captured ErrorReplyError value
(protocol module RawOrError; the embedded-error behaviour per spec §4.5). -/
inductive RawOrError
  | reply (r : RedisReply)
  | errorValue (line : Bytes)

/-- Modelled from the spec: the per-slot read of `sendCommands` (the protocol
module holding it is not in the corpus). Spec §4.5: each reply is captured
individually and an error frame becomes an ErrorReplyError value placed in the
result list instead of aborting the batch; the error line is consumed like any
reply frame. Any other frame is read with readReply, whose array-depth fuel
`input.length + 1` is ample for any frame the stream can hold. -/
def readReplyOrError (input : Bytes) : Except RedisError (RawOrError × Bytes) :=
  match peek1 input with
  | none => .error .eof
  | some code =>
    if code = ErrorReplyCode then
      match readLine input with
      | .error e => .error e
      | .ok (line, rest) => .ok (.errorValue line, rest)
    else
      match readReply (input.length + 1) input with
      | .error e => .error e
      | .ok (r, rest) => .ok (.reply r, rest)

/-- Modelled from the spec: the reply loop of `sendCommands` — read exactly one
slot per command, in order. -/
def readManyOrError : Nat → Bytes → Except RedisError (List RawOrError × Bytes)
  | 0, input => .ok ([], input)
  | n + 1, input =>
    match readReplyOrError input with
    | .error e => .error e
    | .ok (r, rest) =>
      match readManyOrError n rest with
      | .error e => .error e
      | .ok (rs, rest2) => .ok (r :: rs, rest2)

/-- Modelled from the spec: `sendCommands` — write all commands of the batch as
one contiguous block (the write does not affect the reply stream, which the
abstract server provides as `wire`), then read exactly `batch.length` reply
frames in order. -/
def sendCommands (batch : List PipelineCommand) (wire : Bytes) :
    Except RedisError (List RawOrError × Bytes) :=
  readManyOrError batch.length wire

/-- Enqueue a list of commands one by one through PipelineExecutor.sendCommand. -/
def enqueueAll (st : PipelineState) : List PipelineCommand → PipelineState
  | [] => st
  | c :: cs => enqueueAll (PipelineExecutor.sendCommand st c.command (some c.args)).2 cs

/-- The behaviour of `pl.cmd(...); …; pl.flush()` on a fresh pipeline: enqueue all
commands, flush, and dispatch the single queued batch against the server's reply
stream. -/
def flushRun (tx : Bool) (cmds : List PipelineCommand) (wire : Bytes) :
    Except RedisError (List RawOrError × Bytes) :=
  sendCommands
    ((PipelineExecutor.flush tx (enqueueAll initialPipelineState cmds)).queue.getD 0 [])
    wire

/-- `w` parses as exactly one result slot `r`, consuming precisely `w`. -/
def ParsesTo (w : Bytes) (r : RawOrError) : Prop :=
  ∀ rest, readReplyOrError (w ++ rest) = .ok (r, rest)

/-- C3: PipelineExecutor.sendCommand always returns the already-resolved sentinel
okReply — independent of the command and of anything the later flush will
deliver — and its only state change is appending exactly one command record to
the pending list, leaving the queue (hence any I/O) untouched. -/
theorem C3_sendCommand_sentinel :
    ∀ (st : PipelineState) (command : Bytes) (args : Option (List Bytes)),
      (PipelineExecutor.sendCommand st command args).1 = okReply ∧
      (PipelineExecutor.sendCommand st command args).2.commands =
        st.commands ++ [⟨command, args.getD kEmptyRedisArgs⟩] ∧
      (PipelineExecutor.sendCommand st command args).2.queue = st.queue :=
  fun _ _ _ => ⟨rfl, rfl, rfl⟩

theorem readReply_simpleString (fuel : Nat) (s rest : Bytes) (h10 : 10 ∉ s) :
    readReply (fuel + 1) ((SimpleStringCode :: s) ++ 13 :: 10 :: rest) =
      .ok (.simple s, rest) := by
  have hline : 10 ∉ (SimpleStringCode :: s) := by
    intro h
    rcases List.mem_cons.mp h with h | h
    · simp [SimpleStringCode] at h
    · exact h10 h
  have hpeek : peek1 ((SimpleStringCode :: s) ++ 13 :: 10 :: rest) = some SimpleStringCode := rfl
  rw [readReply, hpeek]
  dsimp only
  rw [if_neg (by simp [SimpleStringCode, ErrorReplyCode]),
    if_neg (by simp [SimpleStringCode, IntegerReplyCode]), if_pos rfl]
  rw [readSimpleStringReply, readLine_crlf _ _ hline]
  dsimp only
  rw [if_neg (by simp)]
  rfl

theorem readReply_integer (fuel : Nat) (n : Nat) (rest : Bytes) :
    readReply (fuel + 1) ((IntegerReplyCode :: natToDec n) ++ 13 :: 10 :: rest) =
      .ok (.integer (some (n : Int)), rest) := by
  have hline : 10 ∉ (IntegerReplyCode :: natToDec n) := by
    intro h
    rcases List.mem_cons.mp h with h | h
    · simp [IntegerReplyCode] at h
    · exact natToDec_no_lf n h
  have hpeek : peek1 ((IntegerReplyCode :: natToDec n) ++ 13 :: 10 :: rest) =
      some IntegerReplyCode := rfl
  rw [readReply, hpeek]
  dsimp only
  rw [if_neg (by simp [IntegerReplyCode, ErrorReplyCode]), if_pos rfl]
  rw [readIntegerReply, readLine_crlf _ _ hline]
  dsimp only
  rw [List.drop_succ_cons, List.drop_zero, jsParseInt_natToDec]

theorem parsesTo_simple (s : Bytes) (h10 : 10 ∉ s) :
    ParsesTo ((SimpleStringCode :: s) ++ [13, 10]) (.reply (.simple s)) := by
  intro rest
  have hshape : ((SimpleStringCode :: s) ++ [13, 10]) ++ rest =
      (SimpleStringCode :: s) ++ 13 :: 10 :: rest := by simp
  rw [hshape, readReplyOrError]
  have hpeek : peek1 ((SimpleStringCode :: s) ++ 13 :: 10 :: rest) = some SimpleStringCode := rfl
  rw [hpeek]
  dsimp only
  rw [if_neg (by simp [SimpleStringCode, ErrorReplyCode])]
  rw [readReply_simpleString _ s rest h10]

theorem parsesTo_integer (n : Nat) :
    ParsesTo ((IntegerReplyCode :: natToDec n) ++ [13, 10])
      (.reply (.integer (some (n : Int)))) := by
  intro rest
  have hshape : ((IntegerReplyCode :: natToDec n) ++ [13, 10]) ++ rest =
      (IntegerReplyCode :: natToDec n) ++ 13 :: 10 :: rest := by simp
  rw [hshape, readReplyOrError]
  have hpeek : peek1 ((IntegerReplyCode :: natToDec n) ++ 13 :: 10 :: rest) =
      some IntegerReplyCode := rfl
  rw [hpeek]
  dsimp only
  rw [if_neg (by simp [IntegerReplyCode, ErrorReplyCode])]
  rw [readReply_integer _ n rest]

theorem parsesTo_bulk (a : Bytes) : ParsesTo (encodeBulk a) (.reply (.bulk (some a))) := by
  intro rest
  rw [readReplyOrError]
  have hpeek : peek1 (encodeBulk a ++ rest) = some BulkReplyCode := by
    simp [peek1, encodeBulk]
  rw [hpeek]
  dsimp only
  rw [if_neg (by simp [BulkReplyCode, ErrorReplyCode])]
  rw [readReply_encodeBulk (encodeBulk a ++ rest).length a rest]

theorem parsesTo_array (items : List Bytes) :
    ParsesTo (encodeArray items)
      (.reply (.array (some (items.map fun a => RedisReply.bulk (some a))))) := by
  intro rest
  rw [readReplyOrError]
  have hpeek : peek1 (encodeArray items ++ rest) = some ArrayReplyCode := by
    simp [peek1, encodeArray]
  rw [hpeek]
  dsimp only
  rw [if_neg (by simp [ArrayReplyCode, ErrorReplyCode])]
  obtain ⟨m, hm⟩ : ∃ m, (encodeArray items ++ rest).length + 1 = m + 2 := by
    refine ⟨(encodeArray items ++ rest).length - 1, ?_⟩
    have h1 : 1 ≤ (encodeArray items ++ rest).length := by
      rw [encodeArray]
      simp
    omega
  rw [hm, readReply_encodeArray m items rest]

theorem parsesTo_errorValue (s : Bytes) (h10 : 10 ∉ s) :
    ParsesTo ((ErrorReplyCode :: s) ++ [13, 10]) (.errorValue (ErrorReplyCode :: s)) := by
  intro rest
  have hshape : ((ErrorReplyCode :: s) ++ [13, 10]) ++ rest =
      (ErrorReplyCode :: s) ++ 13 :: 10 :: rest := by simp
  have hline : 10 ∉ (ErrorReplyCode :: s) := by
    intro h
    rcases List.mem_cons.mp h with h | h
    · simp [ErrorReplyCode] at h
    · exact h10 h
  rw [hshape, readReplyOrError]
  have hpeek : peek1 ((ErrorReplyCode :: s) ++ 13 :: 10 :: rest) = some ErrorReplyCode := rfl
  rw [hpeek]
  dsimp only
  rw [if_pos rfl, readLine_crlf _ _ hline]

theorem readManyOrError_chunks :
    ∀ (chunks : List Bytes) (rs : List RawOrError), List.Forall₂ ParsesTo chunks rs →
      ∀ rest, readManyOrError chunks.length (chunks.flatten ++ rest) = .ok (rs, rest) := by
  intro chunks
  induction chunks with
  | nil =>
    intro rs hf rest
    cases hf
    simp [readManyOrError]
  | cons w ws ih =>
    intro rs hf rest
    cases hf with
    | cons h htail =>
      rename_i r rs2
      simp only [List.flatten_cons, List.length_cons, List.append_assoc]
      rw [readManyOrError, h (ws.flatten ++ rest)]
      dsimp only
      rw [ih rs2 htail rest]

theorem enqueueAll_spec (cmds : List PipelineCommand) :
    ∀ st : PipelineState, enqueueAll st cmds = ⟨st.commands ++ cmds, st.queue⟩ := by
  induction cmds with
  | nil => intro st; simp [enqueueAll]
  | cons c cs ih =>
    intro st
    rw [enqueueAll, ih]
    simp [PipelineExecutor.sendCommand]

/-- C2: `flush()` on a batch of N enqueued commands delivers exactly N result
slots, the n-th slot being the n-th reply frame of the server's stream (i.e. the
reply to the n-th enqueued command, in enqueue order), the whole stream being
consumed. -/
theorem C2_flush_length_order (cmds : List PipelineCommand) (chunks : List Bytes)
    (rs : List RawOrError) (hf : List.Forall₂ ParsesTo chunks rs)
    (hlen : chunks.length = cmds.length) :
    flushRun false cmds chunks.flatten = .ok (rs, []) ∧ rs.length = cmds.length := by
  constructor
  · rw [flushRun, enqueueAll_spec cmds initialPipelineState]
    have hq : (PipelineExecutor.flush false
        (⟨initialPipelineState.commands ++ cmds,
          initialPipelineState.queue⟩ : PipelineState)).queue.getD 0 [] = cmds := by
      simp [PipelineExecutor.flush, initialPipelineState, wrapTx]
    rw [hq, sendCommands, ← hlen]
    have := readManyOrError_chunks chunks rs hf []
    simpa using this
  · rw [← hf.length_eq, hlen]

/-- Witness for C2: the seven-command batch of scenario S2, with reply types
status, status, status, status, array, integer, integer. -/
theorem C2_flush_witness :
    flushRun false
        [⟨str "PING", []⟩, ⟨str "PING", []⟩, ⟨str "SET", [str "set1", str "value1"]⟩,
          ⟨str "SET", [str "set2", str "value2"]⟩, ⟨str "MGET", [str "set1", str "set2"]⟩,
          ⟨str "DEL", [str "set1"]⟩, ⟨str "DEL", [str "set2"]⟩]
        ([(SimpleStringCode :: str "PONG") ++ [13, 10],
          (SimpleStringCode :: str "PONG") ++ [13, 10],
          (SimpleStringCode :: str "OK") ++ [13, 10],
          (SimpleStringCode :: str "OK") ++ [13, 10],
          encodeArray [str "value1", str "value2"],
          (IntegerReplyCode :: natToDec 1) ++ [13, 10],
          (IntegerReplyCode :: natToDec 1) ++ [13, 10]].flatten) =
      .ok ([.reply (.simple (str "PONG")), .reply (.simple (str "PONG")),
        .reply (.simple (str "OK")), .reply (.simple (str "OK")),
        .reply (.array (some [.bulk (some (str "value1")), .bulk (some (str "value2"))])),
        .reply (.integer (some (1 : Int))), .reply (.integer (some (1 : Int)))], []) ∧
    ([.reply (.simple (str "PONG")), .reply (.simple (str "PONG")),
      .reply (.simple (str "OK")), .reply (.simple (str "OK")),
      .reply (.array (some [.bulk (some (str "value1")), .bulk (some (str "value2"))])),
      .reply (.integer (some (1 : Int))), .reply (.integer (some (1 : Int)))] :
      List RawOrError).length = 7 := by
  have h := C2_flush_length_order
    [⟨str "PING", []⟩, ⟨str "PING", []⟩, ⟨str "SET", [str "set1", str "value1"]⟩,
      ⟨str "SET", [str "set2", str "value2"]⟩, ⟨str "MGET", [str "set1", str "set2"]⟩,
      ⟨str "DEL", [str "set1"]⟩, ⟨str "DEL", [str "set2"]⟩]
    [(SimpleStringCode :: str "PONG") ++ [13, 10],
      (SimpleStringCode :: str "PONG") ++ [13, 10],
      (SimpleStringCode :: str "OK") ++ [13, 10],
      (SimpleStringCode :: str "OK") ++ [13, 10],
      encodeArray [str "value1", str "value2"],
      (IntegerReplyCode :: natToDec 1) ++ [13, 10],
      (IntegerReplyCode :: natToDec 1) ++ [13, 10]]
    [.reply (.simple (str "PONG")), .reply (.simple (str "PONG")),
      .reply (.simple (str "OK")), .reply (.simple (str "OK")),
      .reply (.array (some [.bulk (some (str "value1")), .bulk (some (str "value2"))])),
      .reply (.integer (some (1 : Int))), .reply (.integer (some (1 : Int)))]
    (by
      refine List.Forall₂.cons (parsesTo_simple (str "PONG") (by decide)) ?_
      refine List.Forall₂.cons (parsesTo_simple (str "PONG") (by decide)) ?_
      refine List.Forall₂.cons (parsesTo_simple (str "OK") (by decide)) ?_
      refine List.Forall₂.cons (parsesTo_simple (str "OK") (by decide)) ?_
      refine List.Forall₂.cons (parsesTo_array [str "value1", str "value2"]) ?_
      refine List.Forall₂.cons (parsesTo_integer 1) ?_
      refine List.Forall₂.cons (parsesTo_integer 1) ?_
      exact List.Forall₂.nil)
    rfl
  exact h

/-- C5: a pipeline batch whose middle command draws an error frame still delivers
all three slots — the error is embedded as an ErrorReplyError value in its slot
and the following command's reply is still read (scenario S4). -/
theorem C5_error_mid_batch :
    flushRun false
        [⟨str "SET", [str "a", str "a"]⟩,
          ⟨str "EVAL", [str "var", str "1", str "k", str "v"]⟩,
          ⟨str "GET", [str "a"]⟩]
        (str "+OK\r\n-ERR Error compiling script\r\n$1\r\na\r\n") =
      .ok ([.reply (.simple (str "OK")),
        .errorValue (str "-ERR Error compiling script"),
        .reply (.bulk (some (str "a")))], []) ∧
    ([.reply (.simple (str "OK")),
      .errorValue (str "-ERR Error compiling script"),
      .reply (.bulk (some (str "a")))] : List RawOrError).length = 3 :=
  ⟨rfl, rfl⟩

/-! ### Flush serialization (src/pipeline.ts flush/dequeue) -/

/-- One user-level operation on a pipeline executor. -/
inductive PipelineOp
  | enq (c : PipelineCommand)
  | fl
deriving DecidableEq, Repr

/-- Executor state for the flush-serialization model. Queue entries carry the
flush's enqueue index, modelling its deferred; `resolved` lists the indices of
completed flushes in the order their deferreds were resolved. -/
structure ExecState where
  pending : List PipelineCommand
  queue : List (Nat × List PipelineCommand)
  nextId : Nat
  resolved : List Nat
deriving DecidableEq, Repr

/-- The state of a fresh executor. -/
def ExecState.init : ExecState := ⟨[], [], 0, []⟩

/-- The events of src/pipeline.ts: a sendCommand call appends to the pending
buffer; a flush call snapshots the wrapped pending buffer onto the queue; a
completion resolves the head entry's deferred and shifts it. dequeue only ever
runs sendCommands on `queue[0]` and shifts it in `finally` before recursing, so a
completion step exists only for the head entry — at most one batch is in flight. -/
inductive ExecStep (tx : Bool) : ExecState → ExecState → Prop
  | send (st : ExecState) (c : PipelineCommand) :
      ExecStep tx st ⟨st.pending ++ [c], st.queue, st.nextId, st.resolved⟩
  | flushCall (st : ExecState) :
      ExecStep tx st
        ⟨[], st.queue ++ [(st.nextId, wrapTx tx st.pending)], st.nextId + 1, st.resolved⟩
  | complete (st : ExecState) (i : Nat) (b : List PipelineCommand)
      (rest : List (Nat × List PipelineCommand)) :
      st.queue = (i, b) :: rest →
      ExecStep tx st ⟨st.pending, rest, st.nextId, st.resolved ++ [i]⟩

/-- States reachable from a fresh executor by executor events. -/
inductive ExecReachable (tx : Bool) : ExecState → Prop
  | init : ExecReachable tx ExecState.init
  | step {st st' : ExecState} :
      ExecReachable tx st → ExecStep tx st st' → ExecReachable tx st'

/-- Apply one user operation (no completion) to the executor state. -/
def applyOp (tx : Bool) (st : ExecState) : PipelineOp → ExecState
  | .enq c => ⟨st.pending ++ [c], st.queue, st.nextId, st.resolved⟩
  | .fl => ⟨[], st.queue ++ [(st.nextId, wrapTx tx st.pending)], st.nextId + 1, st.resolved⟩

/-- Run a straight-line sequence of user operations. -/
def processOps (tx : Bool) : ExecState → List PipelineOp → ExecState
  | st, [] => st
  | st, op :: ops => processOps tx (applyOp tx st op) ops

/-- The spec's batch partition (§4.5): the commands enqueued between the
(n-1)-th and the n-th flush call form exactly the n-th batch, wrapped in
MULTI/EXEC in tx mode. -/
def specBatches (tx : Bool) : List PipelineCommand → List PipelineOp → List (List PipelineCommand)
  | _, [] => []
  | buffered, .enq c :: ops => specBatches tx (buffered ++ [c]) ops
  | buffered, .fl :: ops => wrapTx tx buffered :: specBatches tx [] ops

theorem execInvariant (tx : Bool) (st : ExecState) (h : ExecReachable tx st) :
    st.resolved ++ st.queue.map Prod.fst = List.range st.nextId := by
  induction h with
  | init => rfl
  | step hr hs ih =>
    cases hs with
    | send c => simpa using ih
    | flushCall =>
      simp only [List.map_append, List.map_cons, List.map_nil, List.range_succ, ← ih,
        List.append_assoc]
    | complete i b rest hq =>
      rw [hq] at ih
      simpa [List.append_assoc] using ih

theorem execResolved_range (tx : Bool) (st : ExecState) (h : ExecReachable tx st) :
    st.resolved = List.range st.resolved.length := by
  have hinv := execInvariant tx st h
  have hlen : st.resolved.length ≤ st.nextId := by
    have hl := congrArg List.length hinv
    simp only [List.length_append, List.length_map, List.length_range] at hl
    omega
  have htake : st.resolved = (List.range st.nextId).take st.resolved.length := by
    rw [← hinv, List.take_left]
  conv_lhs => rw [htake, List.take_range]
  congr 1
  omega

theorem processOps_batches (tx : Bool) (ops : List PipelineOp) :
    ∀ st : ExecState,
      (processOps tx st ops).queue.map Prod.snd =
        st.queue.map Prod.snd ++ specBatches tx st.pending ops := by
  induction ops with
  | nil => intro st; simp [processOps, specBatches]
  | cons op ops ih =>
    intro st
    cases op with
    | enq c =>
      rw [processOps, ih]
      simp [applyOp, specBatches]
    | fl =>
      rw [processOps, ih]
      simp [applyOp, specBatches]

/-- C4: (i) in every reachable executor state the already-resolved flush indices
followed by the queued flush indices are exactly `0, 1, 2, …` in order — so
completions (possible only at the queue's head, one batch in flight at a time)
resolve the n-th enqueued flush only after the (n-1)-th — and (ii) for any
straight-line sequence of sendCommand/flush calls the queued batches are exactly
the spec partition: every command enqueued between two flush calls belongs to the
later flush's batch and no other, each batch getting MULTI/EXEC wrapping in tx
mode. -/
theorem C4_flush_serialization :
    (∀ (tx : Bool) (st : ExecState), ExecReachable tx st →
        st.resolved ++ st.queue.map Prod.fst = List.range st.nextId ∧
        st.resolved = List.range st.resolved.length) ∧
    (∀ (tx : Bool) (ops : List PipelineOp),
        (processOps tx ExecState.init ops).queue.map Prod.snd = specBatches tx [] ops) := by
  constructor
  · intro tx st h
    exact ⟨execInvariant tx st h, execResolved_range tx st h⟩
  · intro tx ops
    rw [processOps_batches tx ops ExecState.init]
    rfl

/-- Witness for C4: a flush followed by its completion, and a two-operation
straight-line run. -/
theorem C4_flush_serialization_witness :
    ((⟨[], [], 1, [0]⟩ : ExecState).resolved ++
        (⟨[], [], 1, [0]⟩ : ExecState).queue.map Prod.fst = List.range 1 ∧
      (⟨[], [], 1, [0]⟩ : ExecState).resolved =
        List.range (⟨[], [], 1, [0]⟩ : ExecState).resolved.length) ∧
    (processOps false ExecState.init
        [.enq ⟨str "SET", [str "a", str "1"]⟩, .fl]).queue.map Prod.snd =
      specBatches false [] [.enq ⟨str "SET", [str "a", str "1"]⟩, .fl] := by
  constructor
  · exact C4_flush_serialization.1 false ⟨[], [], 1, [0]⟩
      (ExecReachable.step
        (ExecReachable.step ExecReachable.init (ExecStep.flushCall ExecState.init))
        (ExecStep.complete ⟨[], [(0, wrapTx false [])], 1, []⟩ 0 (wrapTx false []) [] rfl))
  · exact C4_flush_serialization.2 false [.enq ⟨str "SET", [str "a", str "1"]⟩, .fl]

/-! ### Cluster dispatcher (spec §4.7; the dispatcher module is not in the corpus,
only its test) -/

/-- A cluster node address. -/
structure NodeAddr where
  host : Bytes
  port : Nat
deriving DecidableEq, Repr

/-- A command as seen by the cluster dispatcher. -/
structure ClusterCmd where
  name : Bytes
  args : List Bytes
deriving DecidableEq, Repr

/-- The ASKING command sent before a replay on an `-ASK` redirection. -/
def askingCmd : ClusterCmd := ⟨str "ASKING", []⟩

/-- What a node answers to a command: a reply, or a `-MOVED slot host:port` /
`-ASK slot host:port` redirection error. -/
inductive ClusterResp
  | ok (r : RedisReply)
  | moved (slot : Nat) (target : NodeAddr)
  | ask (slot : Nat) (target : NodeAddr)

/-- The slot map owned by the dispatcher. -/
abbrev SlotMap := Nat → Option NodeAddr

/-- Modelled from the spec: one command through the cluster dispatcher (the
cluster module is not in the corpus — only its test). Spec §4.7: on `-MOVED`,
update `slotMap[slot]` to the new node and retry there; on `-ASK`, send `ASKING`
on the target and then replay the command there without touching the slot map;
fuel models maxRedirections, its exhaustion the "Too many Cluster redirections?"
failure (`none`). The trace records every (node, command) send in order; the
reply to ASKING is ignored. -/
def dispatch (server : NodeAddr → ClusterCmd → ClusterResp) :
    Nat → SlotMap → NodeAddr → ClusterCmd →
      Option (RedisReply × SlotMap) × List (NodeAddr × ClusterCmd)
  | 0, _, _, _ => (none, [])
  | fuel + 1, sm, node, cmd =>
    match server node cmd with
    | .ok r => (some (r, sm), [(node, cmd)])
    | .moved slot target =>
      let next := dispatch server fuel (Function.update sm slot (some target)) target cmd
      (next.1, (node, cmd) :: next.2)
    | .ask _slot target =>
      let next := dispatch server fuel sm target cmd
      (next.1, (node, cmd) :: (target, askingCmd) :: next.2)

/-- C8: when a command draws `-ASK slot target` and succeeds at the target, the
dispatcher's send trace at the target is `ASKING` immediately followed by the
replayed command, the reply is the target's, and the slot map is returned
unchanged. -/
theorem C8_ask_redirection (server : NodeAddr → ClusterCmd → ClusterResp)
    (fuel slot : Nat) (sm : SlotMap) (node target : NodeAddr) (cmd : ClusterCmd)
    (r : RedisReply) (hask : server node cmd = .ask slot target)
    (hok : server target cmd = .ok r) :
    dispatch server (fuel + 2) sm node cmd =
      (some (r, sm), [(node, cmd), (target, askingCmd), (target, cmd)]) := by
  rw [dispatch, hask]
  dsimp only
  rw [dispatch, hok]

/-- Witness for C8 with a concrete two-node server. -/
theorem C8_ask_redirection_witness :
    dispatch
        (fun n _ =>
          if n = (⟨str "b", 7001⟩ : NodeAddr) then .ok (.simple (str "v"))
          else .ask 5 ⟨str "b", 7001⟩)
        2 (fun _ => none) ⟨str "a", 7000⟩ ⟨str "GET", [str "hoge"]⟩ =
      (some (.simple (str "v"), fun _ => none),
        [(⟨str "a", 7000⟩, ⟨str "GET", [str "hoge"]⟩),
          (⟨str "b", 7001⟩, askingCmd),
          (⟨str "b", 7001⟩, ⟨str "GET", [str "hoge"]⟩)]) :=
  C8_ask_redirection
    (fun n _ =>
      if n = (⟨str "b", 7001⟩ : NodeAddr) then .ok (.simple (str "v"))
      else .ask 5 ⟨str "b", 7001⟩)
    0 5 (fun _ => none) ⟨str "a", 7000⟩ ⟨str "b", 7001⟩ ⟨str "GET", [str "hoge"]⟩
    (.simple (str "v")) rfl rfl

/-! ### Pub/Sub subscription close (spec §4.6 and S5; the pub/sub module is not in
the corpus, only its tests) -/

/-- Errors on the subscriber connection. -/
inductive PubSubError
  | badResource
deriving DecidableEq, Repr

/-- Modelled from the spec: the Subscription's observable state — its tracked
channels and its isClosed flag. -/
structure SubscriptionState where
  channels : List Bytes
  closed : Bool
deriving DecidableEq, Repr

/-- The subscriber Connection: whether it is open, and the pushes the server
still has in flight. -/
structure SubConnState where
  connAlive : Bool
  pushes : List (Bytes × Bytes)
deriving DecidableEq, Repr

/-- A raw read on the subscriber connection: reading on a closed connection fails
with BadResource; an open connection yields the next push, or `none` when the
stream ends. -/
def rawRead (conn : SubConnState) :
    Except PubSubError (Option ((Bytes × Bytes) × SubConnState)) :=
  if conn.connAlive then
    match conn.pushes with
    | [] => .ok none
    | p :: rest => .ok (some (p, ⟨true, rest⟩))
  else .error .badResource

/-- Modelled from the spec: Subscription close — remove all channels, mark the
subscription closed, and close the underlying Connection. -/
def subClose (_st : SubscriptionState) (conn : SubConnState) :
    SubscriptionState × SubConnState :=
  (⟨[], true⟩, ⟨false, conn.pushes⟩)

/-- Modelled from the spec: the `receive()` iteration — repeatedly read from the
connection; a read failure observed while the subscription has been closed
terminates the sequence cleanly instead of propagating (spec §4.6 Close,
scenario S5), while on a live subscription the failure propagates. -/
def receiveLoop : Nat → SubscriptionState → SubConnState →
    Except PubSubError (List (Bytes × Bytes) × SubscriptionState)
  | 0, st, _ => .ok ([], st)
  | fuel + 1, st, conn =>
    if st.closed then .ok ([], st)
    else
      match rawRead conn with
      | .error e => .error e
      | .ok none => .ok ([], st)
      | .ok (some (msg, conn2)) =>
        match receiveLoop fuel st conn2 with
        | .error e => .error e
        | .ok (msgs, st2) => .ok (msg :: msgs, st2)

/-- C9: after closing the client/Subscription, a consumer passively iterating
`receive()` sees the sequence terminate cleanly — an `.ok` result, never a
BadResource error (which the now-dead connection's raw read would produce on a
subscription still marked open) — with the Subscription marked closed. -/
theorem C9_subscription_close :
    ∀ (fuel : Nat) (st : SubscriptionState) (conn : SubConnState),
      receiveLoop fuel (subClose st conn).1 (subClose st conn).2 =
        .ok ([], (subClose st conn).1) ∧
      (subClose st conn).1.closed = true ∧
      (∀ e, receiveLoop fuel (subClose st conn).1 (subClose st conn).2 ≠ .error e) := by
  intro fuel st conn
  refine ⟨?_, rfl, ?_⟩
  · cases fuel with
    | zero => rfl
    | succ fuel =>
      rw [receiveLoop, if_pos (show (subClose st conn).1.closed = true from rfl)]
  · intro e h
    cases fuel with
    | zero => cases h
    | succ fuel =>
      rw [receiveLoop, if_pos (show (subClose st conn).1.closed = true from rfl)] at h
      cases h

/-! ### Stream message parsing (src/stream.ts) -/

/-- src/stream.ts XMessage; the JS Map is modelled by its insertion list. -/
structure XMessage where
  id : String
  field_values : List (String × String)
deriving DecidableEq, Repr

/-- JS `Map.prototype.set`: replace in place when the key exists, else append. -/
def mapSet (m : List (String × String)) (k v : String) : List (String × String) :=
  if m.any (fun p => p.1 = k) then m.map (fun p => if p.1 = k then (k, v) else p)
  else m ++ [(k, v)]

/-- The loop of src/stream.ts parseXMessage, exactly as written: `m` starts at 0
and is never incremented inside the loop; `f` models the `f` variable with the JS
truthiness test `if (f)` (`undefined` and the empty string are falsy). -/
def parseXMessageLoop (m : Nat) (f : Option String)
    (field_values : List (String × String)) :
    List String → List (String × String)
  | [] => field_values
  | data :: rest =>
    if m % 2 = 0 then parseXMessageLoop m (some data) field_values rest
    else
      match f with
      | some fv =>
        if fv ≠ "" then parseXMessageLoop m f (mapSet field_values fv data) rest
        else parseXMessageLoop m f field_values rest
      | none => parseXMessageLoop m f field_values rest

/-- src/stream.ts parseXMessage. -/
def parseXMessage (raw : String × List String) : XMessage :=
  ⟨raw.1, parseXMessageLoop 0 none [] raw.2⟩

theorem parseXMessageLoop_zero (items : List String) :
    ∀ (f : Option String) (fv : List (String × String)),
      parseXMessageLoop 0 f fv items = fv := by
  induction items with
  | nil => intro f fv; rfl
  | cons data rest ih =>
    intro f fv
    rw [parseXMessageLoop.eq_def]
    dsimp only
    rw [if_pos (show 0 % 2 = 0 from rfl), ih]

/-- C10 (code evaluation): parseXMessage never populates field_values — the
counter `m` is never incremented, so every item is treated as a field name — and
in particular the two-item input `("1-1", ["field1", "value1"])` yields an id of
"1-1" with an empty map instead of the claimed `field1 ↦ value1` entry. -/
theorem C10_parseXMessage_eval :
    parseXMessage ("1-1", ["field1", "value1"]) = ⟨"1-1", []⟩ ∧
    ∀ raw : String × List String,
      parseXMessage raw = ⟨raw.1, []⟩ := by
  constructor
  · rfl
  · intro raw
    rw [parseXMessage, parseXMessageLoop_zero]

end DenoRedis
